import Mathlib

/-!
Verification development for the TaskManagerWebApp repository.

Two backend variants are embedded:

* the minimal in-memory Express variant (`server.js`): a module-level task
  array plus a `nextId` counter, with routes
  `GET /api/tasks`, `POST /api/tasks`, `PUT /api/tasks/:id`,
  `DELETE /api/tasks/:id` and a final `GET *` catch-all that serves the
  static index page; and
* the structured Spring variant (`TaskController.java`): a controller
  delegating to a `TaskRepository`, with bean validation applied to the
  request body before the handler runs.  The `Task` entity and the
  repository implementation are not part of the analysed sources, so they
  are modelled from the specification where needed (each such definition
  says so in its doc comment).
-/

namespace TaskApp

/-- A JavaScript runtime value, as far as the request bodies of the
in-memory variant can observe it: JSON `null`, booleans, (integer)
numbers, `NaN`, strings and a collapsed truthy object value. -/
inductive JSValue where
  | vNull : JSValue
  | vBool : Bool → JSValue
  | vNum : Int → JSValue
  | vNaN : JSValue
  | vStr : String → JSValue
  | vObj : JSValue
deriving DecidableEq, Repr

/-- JavaScript truthiness: `null`, `false`, `0`, `NaN` and the empty
string are falsy, everything else is truthy. -/
def truthy : JSValue → Bool
  | .vNull => false
  | .vBool b => b
  | .vNum n => n != 0
  | .vNaN => false
  | .vStr s => s != ""
  | .vObj => true

/-- Whether a JavaScript value is a boolean. -/
def isBoolV : JSValue → Bool
  | .vBool _ => true
  | _ => false

/-- Drop leading and trailing whitespace from a character list. -/
def trimChars (l : List Char) : List Char :=
  List.rdropWhile Char.isWhitespace (l.dropWhile Char.isWhitespace)

/-- JavaScript `String.prototype.trim`: the string with leading and
trailing whitespace removed. -/
def jsTrim (s : String) : String :=
  String.mk (trimChars s.data)

/-- A stored task of the in-memory variant
(`{ id, title, completed, createdAt }` in `server.js`).  The server
assigns `id` from its counter and `createdAt` from the clock; `title` and
`completed` are JavaScript values because `PUT` stores what the client
sent (`task.title = title`) respectively a coerced boolean
(`task.completed = !!completed`). -/
structure MemTask where
  id : Nat
  title : JSValue
  completed : JSValue
  createdAt : Nat
deriving DecidableEq, Repr

/-- The in-memory store: `let tasks = []; let nextId = 1;`. -/
structure MemStore where
  tasks : List MemTask
  nextId : Nat
deriving DecidableEq, Repr

/-- The initial store state of `server.js`. -/
def initStore : MemStore := { tasks := [], nextId := 1 }

/-- A parsed JSON request body as the in-memory handlers destructure it:
the handlers read only `title` and `completed`; the remaining fields are
carried so that their irrelevance can be stated. -/
structure ReqBody where
  title : Option JSValue
  completed : Option JSValue
  idField : Option JSValue
  createdAtField : Option JSValue
  extra : List (String × JSValue)
deriving DecidableEq, Repr

/-- A request body supplying nothing. -/
def emptyBody : ReqBody :=
  { title := none, completed := none, idField := none,
    createdAtField := none, extra := [] }

/-- Outcome of `POST /api/tasks` in the in-memory variant. -/
inductive PostResult where
  | badRequest : PostResult
  | created : MemTask → PostResult
  | typeError : PostResult
deriving DecidableEq, Repr

/-- Core of the `POST /api/tasks` handler, a function of the only body
field it reads (`const { title } = req.body`).  The guard is
`!title || !title.trim()`: an absent or falsy `title` is rejected with
400; a truthy non-string `title` makes `title.trim()` throw a
`TypeError`; otherwise the task is built from the counter, the trimmed
title, `completed: false` and the clock, and appended. -/
def postCore (st : MemStore) (titleField : Option JSValue) (clock : Nat) :
    PostResult × MemStore :=
  match titleField with
  | none => (.badRequest, st)
  | some v =>
    if truthy v = false then (.badRequest, st)
    else
      match v with
      | .vStr s =>
        if jsTrim s = "" then (.badRequest, st)
        else
          let t : MemTask :=
            { id := st.nextId, title := .vStr (jsTrim s),
              completed := .vBool false, createdAt := clock }
          (.created t, { tasks := st.tasks ++ [t], nextId := st.nextId + 1 })
      | _ => (.typeError, st)

/-- The `POST /api/tasks` handler of `server.js`. -/
def postTasks (st : MemStore) (b : ReqBody) (clock : Nat) :
    PostResult × MemStore :=
  postCore st b.title clock

/-- Outcome of `PUT /api/tasks/:id` in the in-memory variant. -/
inductive PutResult where
  | notFound : PutResult
  | ok : MemTask → PutResult
deriving DecidableEq, Repr

/-- Field assignments of the `PUT` handler on the found task:
`if (title !== undefined) task.title = title;` stores the client value
verbatim, and `if (completed !== undefined) task.completed = !!completed;`
stores its truthiness. -/
def applyPut (b : ReqBody) (t : MemTask) : MemTask :=
  { t with
    title := match b.title with | none => t.title | some v => v,
    completed :=
      match b.completed with | none => t.completed | some v => .vBool (truthy v) }

/-- Replace the first element satisfying `p` by its image under `f`
(mutating the object returned by `Array.prototype.find`). -/
def updateFirst {α : Type} (p : α → Bool) (f : α → α) : List α → List α
  | [] => []
  | t :: ts => if p t then f t :: ts else t :: updateFirst p f ts

/-- The `PUT /api/tasks/:id` handler of `server.js`: find the task by id,
404 when absent, otherwise mutate the found task in place. -/
def putTask (st : MemStore) (i : Nat) (b : ReqBody) : PutResult × MemStore :=
  match st.tasks.find? (fun t => t.id == i) with
  | none => (.notFound, st)
  | some t =>
    (.ok (applyPut b t),
     { st with tasks := updateFirst (fun u => u.id == i) (applyPut b) st.tasks })

/-- Remove the first element satisfying `p`, returning it alongside the
remaining list (`findIndex` followed by `splice(idx, 1)`). -/
def removeFirst {α : Type} (p : α → Bool) : List α → Option α × List α
  | [] => (none, [])
  | t :: ts =>
    if p t then (some t, ts)
    else ((removeFirst p ts).1, t :: (removeFirst p ts).2)

/-- The `DELETE /api/tasks/:id` handler of `server.js`: 404 when
`findIndex` misses, otherwise splice out and return the removed task. -/
def deleteTask (st : MemStore) (i : Nat) : Option MemTask × MemStore :=
  let r := removeFirst (fun t => t.id == i) st.tasks
  (r.1, { st with tasks := r.2 })

/-- Response of a `GET` request in the in-memory variant. -/
inductive GetResult where
  | taskList : List MemTask → GetResult
  | staticPage : GetResult
deriving DecidableEq, Repr

/-- HTTP status of a `GET` response: both the task list and the static
index page answer 200. -/
def getStatus : GetResult → Nat
  | .taskList _ => 200
  | .staticPage => 200

/-- Dispatch of a `GET` request over the routes of `server.js`, in
registration order: `GET /api/tasks` serves the task list and the
catch-all `app.get('*')` serves the static index page; there is no
`GET /api/tasks/:id` route. -/
def dispatchGet (st : MemStore) (path : String) : GetResult :=
  if path = "/api/tasks" then .taskList st.tasks else .staticPage

/-- An API mutation of the in-memory variant, for reasoning over
operation sequences. -/
inductive Op where
  | post : ReqBody → Nat → Op
  | put : Nat → ReqBody → Op
  | del : Nat → Op
deriving Repr

/-- State after one operation. -/
def applyOp (st : MemStore) : Op → MemStore
  | .post b c => (postTasks st b c).2
  | .put i b => (putTask st i b).2
  | .del i => (deleteTask st i).2

/-- State after a sequence of operations. -/
def runTrace (st : MemStore) : List Op → MemStore
  | [] => st
  | op :: ops => runTrace (applyOp st op) ops

/-- The ids returned by the successful `create` calls of a trace, in call
order. -/
def createdIdsFrom (st : MemStore) : List Op → List Nat
  | [] => []
  | .post b c :: ops =>
    match postTasks st b c with
    | (.created t, st') => t.id :: createdIdsFrom st' ops
    | (_, st') => createdIdsFrom st' ops
  | op :: ops => createdIdsFrom (applyOp st op) ops

/-- A stored title is acceptable when it is a non-empty string equal to
its trimmed form. -/
def titleOk : JSValue → Bool
  | .vStr s => s != "" && jsTrim s == s
  | _ => false

/-- Every stored task of the state has an acceptable title. -/
def titlesOk (st : MemStore) : Bool :=
  st.tasks.all (fun t => titleOk t.title)

/-- Every stored task of the state has a boolean `completed` field. -/
def completedOk (st : MemStore) : Bool :=
  st.tasks.all (fun t => isBoolV t.completed)

/-! ### The structured Spring variant

`TaskController.java` is among the analysed sources; the `Task` entity,
its bean-validation constraints and the JPA `TaskRepository` are not, so
those are modelled from the specification. -/

/-- The task status enumeration of the structured variant. -/
inductive TaskStatus where
  | TODO : TaskStatus
  | IN_PROGRESS : TaskStatus
  | DONE : TaskStatus
deriving DecidableEq, Repr

/-- A task entity of the structured variant.  `id` is `none` before the
repository assigns one; `dueDate` abstracts `LocalDate` as a day
number. -/
structure JTask where
  id : Option Nat
  title : String
  description : Option String
  status : TaskStatus
  dueDate : Option Nat
deriving DecidableEq, Repr

/-- A deserialized request body of the structured variant: the fields a
client may supply when creating or replacing a task.  `status` is `none`
when the JSON omitted it. -/
structure JInput where
  title : String
  description : Option String
  status : Option TaskStatus
  dueDate : Option Nat
deriving DecidableEq, Repr

/-- Modelled from the spec: the `Task` entity (absent from the analysed
sources) initialises `status` to `TODO`, so deserializing a body that
omits `status` yields a task in status `TODO` ("defaults to TODO when
omitted on creation"). -/
def mkJTask (i : JInput) : JTask :=
  { id := none, title := i.title, description := i.description,
    status := i.status.getD .TODO, dueDate := i.dueDate }

/-- Modelled from the spec: the bean-validation constraints of the `Task`
entity (absent from the analysed sources), per the validation rules of
the spec: `title` required with trimmed length in `[1, 100]`;
`description` optional with trimmed length at most 500.  `status` and
`dueDate` validity is enforced by the types of `JInput`. -/
def validInput (i : JInput) : Bool :=
  1 ≤ (jsTrim i.title).length && (jsTrim i.title).length ≤ 100 &&
    (match i.description with
     | none => true
     | some d => (jsTrim d).length ≤ 500)

/-- The repository state of the structured variant: the saved rows in
insertion order and the next identity value. -/
structure Repo where
  rows : List JTask
  nextId : Nat
deriving DecidableEq, Repr

/-- The empty repository. -/
def emptyRepo : Repo := { rows := [], nextId := 1 }

/-- Modelled from the spec: `TaskRepository.save` (absent from the
analysed sources).  Saving an entity without an id assigns the next
unique id and appends; saving an entity that already has an id
overwrites the stored record with that id. -/
def Repo.save (r : Repo) (t : JTask) : JTask × Repo :=
  match t.id with
  | none =>
    let saved : JTask := { t with id := some r.nextId }
    (saved, { rows := r.rows ++ [saved], nextId := r.nextId + 1 })
  | some _ =>
    (t, { r with rows := updateFirst (fun u => u.id == t.id) (fun _ => t) r.rows })

/-- `TaskRepository.findById`: first row whose id matches. -/
def Repo.findById (r : Repo) (i : Nat) : Option JTask :=
  r.rows.find? (fun t => t.id == some i)

/-- Modelled from the spec: `TaskRepository.deleteById` (absent from the
analysed sources) removes the stored record with the given id. -/
def Repo.deleteById (r : Repo) (i : Nat) : Repo :=
  { r with rows := (removeFirst (fun t => t.id == some i) r.rows).2 }

/-- Well-formedness of a repository state: every row has an assigned id
below the next identity value. -/
def repoOk (r : Repo) : Bool :=
  r.rows.all (fun t =>
    match t.id with
    | some n => n < r.nextId
    | none => false)

/-- An HTTP-level outcome of the structured variant's controller. -/
inductive JResp where
  | ok : JTask → JResp
  | createdR : JTask → JResp
  | noContent : JResp
  | notFound : JResp
  | badRequest : JResp
deriving DecidableEq, Repr

/-- `TaskController.getById`: `repository.findById(id)` mapped to 200 or
404. -/
def jGetById (r : Repo) (i : Nat) : JResp :=
  match r.findById i with
  | some t => .ok t
  | none => .notFound

/-- `POST /api/tasks` of the structured variant: bean validation of the
body (400 on failure), then `TaskController.create`, which saves the task
and answers 201 with the saved record. -/
def jCreate (r : Repo) (i : JInput) : JResp × Repo :=
  if validInput i then
    let sr := r.save (mkJTask i)
    (.createdR sr.1, sr.2)
  else (.badRequest, r)

/-- `PUT /api/tasks/:id` of the structured variant: bean validation of
the body, then `TaskController.update`, which copies `title`,
`description`, `status` and `dueDate` from the incoming task onto the
existing one and saves it; 404 when the id is absent. -/
def jUpdate (r : Repo) (i : Nat) (inp : JInput) : JResp × Repo :=
  if validInput inp then
    match r.findById i with
    | none => (.notFound, r)
    | some existing =>
      let updated : JTask :=
        { existing with
          title := inp.title, description := inp.description,
          status := inp.status.getD .TODO, dueDate := inp.dueDate }
      let sr := r.save updated
      (.ok sr.1, sr.2)
  else (.badRequest, r)

/-- `TaskController.delete`: 404 when `findById` misses, otherwise
`deleteById` and 204. -/
def jDelete (r : Repo) (i : Nat) : JResp × Repo :=
  match r.findById i with
  | none => (.notFound, r)
  | some _ => (.noContent, r.deleteById i)

/-- An API mutation of the structured variant. -/
inductive JOp where
  | post : JInput → JOp
  | put : Nat → JInput → JOp
  | del : Nat → JOp
deriving Repr

/-- Repository state after one structured-variant operation. -/
def applyJOp (r : Repo) : JOp → Repo
  | .post i => (jCreate r i).2
  | .put n i => (jUpdate r n i).2
  | .del n => (jDelete r n).2

/-- The ids of the records returned by the successful `create` calls of a
structured-variant trace, in call order. -/
def jCreatedIdsFrom (r : Repo) : List JOp → List Nat
  | [] => []
  | .post i :: ops =>
    match jCreate r i with
    | (.createdR t, r') => (t.id.getD 0) :: jCreatedIdsFrom r' ops
    | (_, r') => jCreatedIdsFrom r' ops
  | op :: ops => jCreatedIdsFrom (applyJOp r op) ops

/-! ### Concrete inputs used in witnesses and counterexamples -/

/-- A body creating a task titled `x`. -/
def bodyX : ReqBody := { emptyBody with title := some (.vStr "x") }

/-- A body whose title has leading and trailing whitespace. -/
def bodyPad : ReqBody := { emptyBody with title := some (.vStr " pad ") }

/-- A title of 101 copies of `a`. -/
def a101 : String := String.mk (List.replicate 101 'a')

/-- A body whose title has 101 characters. -/
def body101 : ReqBody := { emptyBody with title := some (.vStr a101) }

/-- A body supplying the same title as `bodyX` together with
client-chosen values for every other field. -/
def bodyDecoy : ReqBody :=
  { title := some (.vStr "x"), completed := some (.vBool true),
    idField := some (.vNum 99), createdAtField := some (.vStr "later"),
    extra := [("priority", .vNum 5)] }

/-- A body supplying only a non-boolean `completed` value. -/
def bodyNum3 : ReqBody := { emptyBody with completed := some (.vNum 3) }

/-- A structured-variant input titled `x` with no optional fields. -/
def inputX : JInput :=
  { title := "x", description := none, status := none, dueDate := none }

/-- The task created from `bodyX` at clock 0 in the fresh store. -/
def tX : MemTask :=
  { id := 1, title := .vStr "x", completed := .vBool false, createdAt := 0 }

/-- The in-memory store after creating one task from `bodyX` at clock 0. -/
def stOne : MemStore := (postTasks initStore bodyX 0).2

/-- The store left after deleting the task of `stOne`. -/
def stEmpty2 : MemStore := { tasks := [], nextId := 2 }

/-- The task of `stOne` after an update that only sets `completed`. -/
def tUp : MemTask :=
  { id := 1, title := .vStr "x", completed := .vBool true, createdAt := 0 }

/-- The store after updating the task of `stOne` from `bodyNum3`. -/
def stUp : MemStore := { tasks := [tUp], nextId := 2 }

/-- The repository after creating one task from `inputX`. -/
def repoOne : Repo := (jCreate emptyRepo inputX).2

/-- The saved record of `repoOne`. -/
def jTaskX : JTask :=
  { id := some 1, title := "x", description := none, status := .TODO,
    dueDate := none }

/-- The record of `repoOne` after a full-replace update from `inputY`. -/
def jTaskY : JTask :=
  { id := some 1, title := "y", description := some "d", status := .DONE,
    dueDate := none }

/-- The repository after updating the record of `repoOne` from `inputY`. -/
def repoY : Repo := { rows := [jTaskY], nextId := 2 }

/-- A structured-variant input with a description and a status. -/
def inputY : JInput :=
  { title := "y", description := some "d", status := some .DONE,
    dueDate := none }

/-! ### Auxiliary lemmas -/

theorem trimChars_dropWhile_eq (l : List Char) :
    (trimChars l).dropWhile Char.isWhitespace = trimChars l := by
  rw [List.dropWhile_eq_self_iff]
  intro hl
  have hpre : trimChars l <+: l.dropWhile Char.isWhitespace :=
    List.rdropWhile_prefix Char.isWhitespace (l.dropWhile Char.isWhitespace)
  have hlen : 0 < (l.dropWhile Char.isWhitespace).length :=
    Nat.lt_of_lt_of_le hl hpre.length_le
  have hg := List.dropWhile_get_zero_not Char.isWhitespace l hlen
  have hgg : (trimChars l).get ⟨0, hl⟩
      = (l.dropWhile Char.isWhitespace).get ⟨0, hlen⟩ := by
    simp only [List.get_eq_getElem]
    exact hpre.getElem hl
  rw [← hgg] at hg
  exact hg

theorem trimChars_trimChars (l : List Char) :
    trimChars (trimChars l) = trimChars l := by
  show List.rdropWhile Char.isWhitespace
      ((trimChars l).dropWhile Char.isWhitespace) = trimChars l
  rw [trimChars_dropWhile_eq]
  exact List.rdropWhile_idempotent _ _

theorem jsTrim_jsTrim (s : String) : jsTrim (jsTrim s) = jsTrim s := by
  show String.mk (trimChars (trimChars s.data)) = String.mk (trimChars s.data)
  rw [trimChars_trimChars]

theorem titleOk_jsTrim {s : String} (h : jsTrim s ≠ "") :
    titleOk (.vStr (jsTrim s)) = true := by
  show ((jsTrim s != "") && (jsTrim (jsTrim s) == jsTrim s)) = true
  rw [jsTrim_jsTrim]
  simp [h]

theorem updateFirst_of_find? {α : Type} {p : α → Bool} {l : List α} {t : α}
    (f : α → α) (h : l.find? p = some t) :
    ∃ l1 l2, l = l1 ++ t :: l2 ∧ (∀ u ∈ l1, p u = false) ∧ p t = true ∧
      updateFirst p f l = l1 ++ f t :: l2 := by
  induction l with
  | nil => simp [List.find?] at h
  | cons a as ih =>
    by_cases ha : p a
    · rw [List.find?_cons_of_pos _ ha] at h
      injection h with h
      subst h
      refine ⟨[], as, by simp, by simp, ha, by simp [updateFirst, ha]⟩
    · rw [List.find?_cons_of_neg _ ha] at h
      obtain ⟨l1, l2, hl, hl1, hpt, hu⟩ := ih h
      refine ⟨a :: l1, l2, by simp [hl], ?_, hpt, ?_⟩
      · intro u hu
        rcases List.mem_cons.mp hu with rfl | hmem
        · exact Bool.eq_false_iff.mpr ha
        · exact hl1 u hmem
      · simp [updateFirst, ha, hu]

theorem updateFirst_map_eq {α β : Type} {p : α → Bool} {f : α → α}
    (g : α → β) (hf : ∀ a, p a = true → g (f a) = g a) (l : List α) :
    (updateFirst p f l).map g = l.map g := by
  induction l with
  | nil => rfl
  | cons a as ih =>
    by_cases ha : p a
    · simp [updateFirst, ha, hf a ha]
    · simp [updateFirst, ha, ih]

theorem updateFirst_all {α : Type} {p : α → Bool} {f : α → α} {q : α → Bool}
    {l : List α} (hl : l.all q = true) (hf : ∀ a, q a = true → q (f a) = true) :
    (updateFirst p f l).all q = true := by
  induction l with
  | nil => rfl
  | cons a as ih =>
    rw [List.all_cons, Bool.and_eq_true] at hl
    by_cases ha : p a
    · simp only [updateFirst, if_pos ha, List.all_cons, Bool.and_eq_true]
      exact ⟨hf a hl.1, hl.2⟩
    · simp only [updateFirst, if_neg ha, List.all_cons, Bool.and_eq_true]
      exact ⟨hl.1, ih hl.2⟩

theorem removeFirst_fst_none {α : Type} {p : α → Bool} {l : List α} :
    (removeFirst p l).1 = none ↔ ∀ a ∈ l, p a = false := by
  induction l with
  | nil => simp [removeFirst]
  | cons a as ih =>
    by_cases ha : p a
    · simp [removeFirst, ha]
    · simp only [removeFirst, if_neg ha, List.mem_cons]
      constructor
      · intro h u hu
        rcases hu with rfl | hmem
        · exact Bool.eq_false_iff.mpr ha
        · exact ih.mp h u hmem
      · intro h
        exact ih.mpr fun u hu => h u (Or.inr hu)

theorem removeFirst_snd_of_none {α : Type} {p : α → Bool} {l : List α}
    (h : (removeFirst p l).1 = none) : (removeFirst p l).2 = l := by
  induction l with
  | nil => rfl
  | cons a as ih =>
    by_cases ha : p a
    · simp [removeFirst, ha] at h
    · simp only [removeFirst, if_neg ha] at h ⊢
      rw [ih h]

theorem removeFirst_some {α : Type} {p : α → Bool} {l : List α} {t : α}
    (h : (removeFirst p l).1 = some t) :
    p t = true ∧ ∃ l1 l2, l = l1 ++ t :: l2 ∧ (∀ u ∈ l1, p u = false) ∧
      (removeFirst p l).2 = l1 ++ l2 := by
  induction l with
  | nil => simp [removeFirst] at h
  | cons a as ih =>
    by_cases ha : p a
    · simp only [removeFirst, if_pos ha] at h ⊢
      injection h with h
      subst h
      exact ⟨ha, [], as, by simp, by simp, by simp⟩
    · simp only [removeFirst, if_neg ha] at h ⊢
      obtain ⟨hpt, l1, l2, hl, hl1, hsnd⟩ := ih h
      refine ⟨hpt, a :: l1, l2, by simp [hl], ?_, by simp [hsnd]⟩
      intro u hu
      rcases List.mem_cons.mp hu with rfl | hmem
      · exact Bool.eq_false_iff.mpr ha
      · exact hl1 u hmem

theorem removeFirst_snd_subset {α : Type} {p : α → Bool} {l : List α} {a : α}
    (h : a ∈ (removeFirst p l).2) : a ∈ l := by
  induction l with
  | nil => simp [removeFirst] at h
  | cons b bs ih =>
    by_cases hb : p b
    · simp only [removeFirst, if_pos hb] at h
      exact List.mem_cons_of_mem _ h
    · simp only [removeFirst, if_neg hb, List.mem_cons] at h
      cases h with
      | inl h => rw [h]; exact List.mem_cons_self _ _
      | inr h => exact List.mem_cons_of_mem _ (ih h)

theorem find?_append_of_none {α : Type} {p : α → Bool} {l1 l2 : List α}
    (h : l1.find? p = none) : (l1 ++ l2).find? p = l2.find? p := by
  induction l1 with
  | nil => rfl
  | cons a as ih =>
    by_cases ha : p a
    · rw [List.find?_cons_of_pos _ ha] at h
      cases h
    · rw [List.find?_cons_of_neg _ ha] at h
      rw [List.cons_append, List.find?_cons_of_neg _ ha]
      exact ih h

/-! ### Characterizations of the in-memory handlers -/

theorem postCore_created {st : MemStore} {tf : Option JSValue} {c : Nat}
    {t : MemTask} {st' : MemStore}
    (h : postCore st tf c = (.created t, st')) :
    ∃ s, tf = some (.vStr s) ∧ jsTrim s ≠ "" ∧
      t = { id := st.nextId, title := .vStr (jsTrim s),
            completed := .vBool false, createdAt := c } ∧
      st' = { tasks := st.tasks ++ [t], nextId := st.nextId + 1 } := by
  unfold postCore at h
  split at h
  · simp at h
  · split at h
    · simp at h
    · split at h
      · rename_i s hnt
        split at h
        · simp at h
        · rename_i hne
          injection h with h1 h2
          injection h1 with h1
          subst h1
          subst h2
          exact ⟨s, rfl, hne, rfl, rfl⟩
      · simp at h

theorem postCore_snd_cases (st : MemStore) (tf : Option JSValue) (c : Nat) :
    (postCore st tf c).2 = st ∨
    ∃ s, jsTrim s ≠ "" ∧ (postCore st tf c).2 =
      { tasks := st.tasks ++
          [{ id := st.nextId, title := .vStr (jsTrim s),
             completed := .vBool false, createdAt := c }],
        nextId := st.nextId + 1 } := by
  unfold postCore
  split
  · exact Or.inl rfl
  · split
    · exact Or.inl rfl
    · split
      · rename_i s hnt
        split
        · exact Or.inl rfl
        · rename_i hne
          exact Or.inr ⟨s, hne, rfl⟩
      · exact Or.inl rfl

theorem putTask_snd_cases (st : MemStore) (i : Nat) (b : ReqBody) :
    (putTask st i b).2 = st ∨
    (putTask st i b).2 =
      { st with tasks := updateFirst (fun u => u.id == i) (applyPut b) st.tasks } := by
  unfold putTask
  split
  · exact Or.inl rfl
  · exact Or.inr rfl

theorem putTask_ok {st : MemStore} {i : Nat} {b : ReqBody} {t' : MemTask}
    {st' : MemStore} (h : putTask st i b = (.ok t', st')) :
    ∃ t, st.tasks.find? (fun u => u.id == i) = some t ∧ t' = applyPut b t ∧
      st' = { st with
        tasks := updateFirst (fun u => u.id == i) (applyPut b) st.tasks } := by
  unfold putTask at h
  split at h
  · simp at h
  · rename_i t hfind
    injection h with h1 h2
    injection h1 with h1
    subst h1
    subst h2
    exact ⟨t, hfind, rfl, rfl⟩

theorem applyPut_id (b : ReqBody) (t : MemTask) : (applyPut b t).id = t.id := rfl

theorem applyPut_createdAt (b : ReqBody) (t : MemTask) :
    (applyPut b t).createdAt = t.createdAt := rfl

theorem applyPut_title_none {b : ReqBody} (t : MemTask) (h : b.title = none) :
    (applyPut b t).title = t.title := by
  simp [applyPut, h]

theorem applyPut_completed_none {b : ReqBody} (t : MemTask)
    (h : b.completed = none) : (applyPut b t).completed = t.completed := by
  simp [applyPut, h]

theorem applyPut_completed_some {b : ReqBody} (t : MemTask) {v : JSValue}
    (h : b.completed = some v) : (applyPut b t).completed = .vBool (truthy v) := by
  simp [applyPut, h]

theorem applyPut_completed_isBool {b : ReqBody} {t : MemTask}
    (h : isBoolV t.completed = true) :
    isBoolV (applyPut b t).completed = true := by
  cases hb : b.completed with
  | none => rw [applyPut_completed_none t hb]; exact h
  | some v => rw [applyPut_completed_some t hb]; rfl

theorem applyOp_nextId (st : MemStore) (op : Op) :
    st.nextId ≤ (applyOp st op).nextId := by
  cases op with
  | post b c =>
    show st.nextId ≤ (postCore st b.title c).2.nextId
    rcases postCore_snd_cases st b.title c with h | ⟨s, _, h⟩
    · rw [h]
    · rw [h]; exact Nat.le_succ _
  | put i b =>
    show st.nextId ≤ (putTask st i b).2.nextId
    rcases putTask_snd_cases st i b with h | h <;> rw [h]
  | del i => exact Nat.le_refl _

/-! ### Trace-level lemmas for the in-memory variant -/

theorem createdIdsFrom_bounds (ops : List Op) :
    ∀ st : MemStore, (∀ x ∈ createdIdsFrom st ops, st.nextId ≤ x) ∧
      (createdIdsFrom st ops).Pairwise (· < ·) := by
  induction ops with
  | nil => intro st; exact ⟨by simp [createdIdsFrom], by simp [createdIdsFrom]⟩
  | cons op ops ih =>
    intro st
    cases op with
    | post b c =>
      rcases hpost : postTasks st b c with ⟨res, st'⟩
      cases res with
      | created t =>
        obtain ⟨s, _, _, ht, hst⟩ := postCore_created hpost
        have hids : createdIdsFrom st (.post b c :: ops)
            = t.id :: createdIdsFrom st' ops := by
          simp only [createdIdsFrom, hpost]
        have hnext : st'.nextId = st.nextId + 1 := by rw [hst]
        have htid : t.id = st.nextId := by rw [ht]
        obtain ⟨hb, hp⟩ := ih st'
        constructor
        · intro x hx
          rw [hids, List.mem_cons] at hx
          rcases hx with rfl | hx
          · rw [htid]
          · exact Nat.le_trans (by rw [hnext]; exact Nat.le_succ _) (hb x hx)
        · rw [hids, List.pairwise_cons]
          refine ⟨fun x hx => ?_, hp⟩
          have := hb x hx
          rw [hnext] at this
          rw [htid]
          exact Nat.lt_of_succ_le this
      | badRequest =>
        have hids : createdIdsFrom st (.post b c :: ops)
            = createdIdsFrom st' ops := by
          simp only [createdIdsFrom, hpost]
        have hst' : (postTasks st b c).2 = st' := by rw [hpost]
        have hnext : st.nextId ≤ st'.nextId := by
          have := applyOp_nextId st (.post b c)
          simpa [applyOp, hst'] using this
        obtain ⟨hb, hp⟩ := ih st'
        rw [hids]
        exact ⟨fun x hx => Nat.le_trans hnext (hb x hx), hp⟩
      | typeError =>
        have hids : createdIdsFrom st (.post b c :: ops)
            = createdIdsFrom st' ops := by
          simp only [createdIdsFrom, hpost]
        have hst' : (postTasks st b c).2 = st' := by rw [hpost]
        have hnext : st.nextId ≤ st'.nextId := by
          have := applyOp_nextId st (.post b c)
          simpa [applyOp, hst'] using this
        obtain ⟨hb, hp⟩ := ih st'
        rw [hids]
        exact ⟨fun x hx => Nat.le_trans hnext (hb x hx), hp⟩
    | put i b =>
      have hids : createdIdsFrom st (.put i b :: ops)
          = createdIdsFrom (applyOp st (.put i b)) ops := rfl
      obtain ⟨hb, hp⟩ := ih (applyOp st (.put i b))
      rw [hids]
      exact ⟨fun x hx =>
        Nat.le_trans (applyOp_nextId st (.put i b)) (hb x hx), hp⟩
    | del i =>
      have hids : createdIdsFrom st (.del i :: ops)
          = createdIdsFrom (applyOp st (.del i)) ops := rfl
      obtain ⟨hb, hp⟩ := ih (applyOp st (.del i))
      rw [hids]
      exact ⟨fun x hx =>
        Nat.le_trans (applyOp_nextId st (.del i)) (hb x hx), hp⟩

theorem completedOk_applyOp {st : MemStore} (op : Op)
    (h : completedOk st = true) : completedOk (applyOp st op) = true := by
  cases op with
  | post b c =>
    show completedOk (postCore st b.title c).2 = true
    rcases postCore_snd_cases st b.title c with hc | ⟨s, _, hc⟩
    · rw [hc]; exact h
    · rw [hc]
      unfold completedOk at h ⊢
      simp only [List.all_append, Bool.and_eq_true]
      exact ⟨h, by simp [isBoolV]⟩
  | put i b =>
    show completedOk (putTask st i b).2 = true
    rcases putTask_snd_cases st i b with hc | hc
    · rw [hc]; exact h
    · rw [hc]
      unfold completedOk at h ⊢
      exact updateFirst_all h fun a ha => applyPut_completed_isBool ha
  | del i =>
    unfold completedOk at h ⊢
    rw [List.all_eq_true] at h ⊢
    intro t ht
    exact h t (removeFirst_snd_subset ht)

theorem completedOk_runTrace (ops : List Op) :
    ∀ st : MemStore, completedOk st = true →
      completedOk (runTrace st ops) = true := by
  induction ops with
  | nil => intro st h; exact h
  | cons op ops ih =>
    intro st h
    exact ih (applyOp st op) (completedOk_applyOp op h)

theorem titlesOk_post (st : MemStore) (b : ReqBody) (c : Nat)
    (h : titlesOk st = true) : titlesOk (postTasks st b c).2 = true := by
  show titlesOk (postCore st b.title c).2 = true
  rcases postCore_snd_cases st b.title c with hc | ⟨s, hs, hc⟩
  · rw [hc]; exact h
  · rw [hc]
    unfold titlesOk at h ⊢
    simp only [List.all_append, Bool.and_eq_true]
    refine ⟨h, ?_⟩
    simp [titleOk_jsTrim hs]

theorem titlesOk_del (st : MemStore) (i : Nat)
    (h : titlesOk st = true) : titlesOk (deleteTask st i).2 = true := by
  unfold titlesOk at h ⊢
  rw [List.all_eq_true] at h ⊢
  intro t ht
  exact h t (removeFirst_snd_subset ht)

theorem removeFirst_fst_eq_find? {α : Type} (p : α → Bool) (l : List α) :
    (removeFirst p l).1 = l.find? p := by
  induction l with
  | nil => rfl
  | cons a as ih =>
    by_cases ha : p a
    · simp [removeFirst, ha, List.find?_cons_of_pos _ ha]
    · rw [List.find?_cons_of_neg _ ha]
      simp only [removeFirst, if_neg ha]
      exact ih

theorem postCore_vStr_fst (st : MemStore) (s : String) (c : Nat) :
    (postCore st (some (.vStr s)) c).1 =
      if jsTrim s = "" then .badRequest
      else .created { id := st.nextId, title := .vStr (jsTrim s),
                      completed := .vBool false, createdAt := c } := by
  by_cases hs : s = ""
  · subst hs
    have h1 : jsTrim "" = "" := by decide
    simp [postCore, truthy, h1]
  · by_cases hj : jsTrim s = ""
    · simp [postCore, truthy, hs, hj]
    · simp [postCore, truthy, hs, hj]

/-! ### Characterizations of the structured variant -/

theorem findById_id {r : Repo} {i : Nat} {t : JTask}
    (h : r.findById i = some t) : t.id = some i := by
  unfold Repo.findById at h
  have := List.find?_some h
  simpa using this

theorem repoOk_find?_fresh {r : Repo} (h : repoOk r = true) :
    r.rows.find? (fun t => t.id == some r.nextId) = none := by
  rw [List.find?_eq_none]
  intro t ht
  unfold repoOk at h
  rw [List.all_eq_true] at h
  have hb := h t ht
  cases hid : t.id with
  | none => simp [hid] at hb
  | some n =>
    rw [hid] at hb
    simp only [decide_eq_true_eq] at hb
    simp [hid, Nat.ne_of_lt hb]

theorem jCreate_createdR {r : Repo} {inp : JInput} {t : JTask} {r' : Repo}
    (h : jCreate r inp = (.createdR t, r')) :
    validInput inp = true ∧ t = { mkJTask inp with id := some r.nextId } ∧
    r' = { rows := r.rows ++ [t], nextId := r.nextId + 1 } := by
  unfold jCreate at h
  split at h
  · rename_i hv
    simp only [Repo.save, mkJTask] at h
    injection h with h1 h2
    injection h1 with h1
    subst h1
    subst h2
    exact ⟨hv, rfl, rfl⟩
  · simp at h

theorem Repo.save_some (r : Repo) (t : JTask) {i : Nat} (h : t.id = some i) :
    r.save t =
      (t, { r with
            rows := updateFirst (fun u => u.id == t.id) (fun _ => t) r.rows }) := by
  unfold Repo.save
  split
  · rename_i heq
    rw [h] at heq
    exact Option.noConfusion heq
  · rfl

theorem jUpdate_ok {r : Repo} {i : Nat} {inp : JInput} {t : JTask} {r' : Repo}
    (h : jUpdate r i inp = (.ok t, r')) :
    validInput inp = true ∧ ∃ existing, r.findById i = some existing ∧
      t = { existing with
            title := inp.title,
            description := inp.description,
            status := inp.status.getD .TODO,
            dueDate := inp.dueDate } ∧
      t.id = some i ∧
      r' = { r with
        rows := updateFirst (fun u => u.id == t.id) (fun _ => t) r.rows } ∧
      r'.nextId = r.nextId := by
  unfold jUpdate at h
  split at h
  · rename_i hv
    split at h
    · simp at h
    · rename_i existing hfind
      have hexid : existing.id = some i := findById_id hfind
      dsimp only at h
      have hup : ({ existing with
          title := inp.title,
          description := inp.description,
          status := inp.status.getD .TODO,
          dueDate := inp.dueDate } : JTask).id = some i := hexid
      rw [Repo.save_some r _ hup] at h
      injection h with h1 h2
      injection h1 with h1
      subst h1
      subst h2
      exact ⟨hv, existing, hfind, rfl, hexid, rfl, rfl⟩
  · simp at h

theorem applyJOp_nextId (r : Repo) (op : JOp) :
    r.nextId ≤ (applyJOp r op).nextId := by
  cases op with
  | post inp =>
    show r.nextId ≤ (jCreate r inp).2.nextId
    unfold jCreate
    split
    · simp only [Repo.save, mkJTask]
      exact Nat.le_succ _
    · exact Nat.le_refl _
  | put n inp =>
    show r.nextId ≤ (jUpdate r n inp).2.nextId
    unfold jUpdate
    split
    · split
      · exact Nat.le_refl _
      · unfold Repo.save
        dsimp only
        split
        · exact Nat.le_succ _
        · exact Nat.le_refl _
    · exact Nat.le_refl _
  | del n =>
    show r.nextId ≤ (jDelete r n).2.nextId
    unfold jDelete
    split
    · exact Nat.le_refl _
    · exact Nat.le_refl _

theorem jCreatedIdsFrom_bounds (ops : List JOp) :
    ∀ r : Repo, (∀ x ∈ jCreatedIdsFrom r ops, r.nextId ≤ x) ∧
      (jCreatedIdsFrom r ops).Pairwise (· < ·) := by
  induction ops with
  | nil => intro r; exact ⟨by simp [jCreatedIdsFrom], by simp [jCreatedIdsFrom]⟩
  | cons op ops ih =>
    intro r
    cases op with
    | post inp =>
      rcases hpost : jCreate r inp with ⟨res, r'⟩
      have hr' : (jCreate r inp).2 = r' := by rw [hpost]
      have hmono : r.nextId ≤ r'.nextId := by
        have := applyJOp_nextId r (.post inp)
        simpa [applyJOp, hr'] using this
      cases res with
      | createdR t =>
        obtain ⟨_, ht, hrr⟩ := jCreate_createdR hpost
        have hids : jCreatedIdsFrom r (.post inp :: ops)
            = (t.id.getD 0) :: jCreatedIdsFrom r' ops := by
          simp only [jCreatedIdsFrom, hpost]
        have htid : t.id.getD 0 = r.nextId := by rw [ht]; rfl
        have hnext : r'.nextId = r.nextId + 1 := by rw [hrr]
        obtain ⟨hb, hp⟩ := ih r'
        constructor
        · intro x hx
          rw [hids, List.mem_cons] at hx
          rcases hx with rfl | hx
          · rw [htid]
          · exact Nat.le_trans (by rw [hnext]; exact Nat.le_succ _) (hb x hx)
        · rw [hids, List.pairwise_cons]
          refine ⟨fun x hx => ?_, hp⟩
          have := hb x hx
          rw [hnext] at this
          rw [htid]
          exact Nat.lt_of_succ_le this
      | ok t =>
        have hids : jCreatedIdsFrom r (.post inp :: ops)
            = jCreatedIdsFrom r' ops := by
          simp only [jCreatedIdsFrom, hpost]
        obtain ⟨hb, hp⟩ := ih r'
        rw [hids]
        exact ⟨fun x hx => Nat.le_trans hmono (hb x hx), hp⟩
      | noContent =>
        have hids : jCreatedIdsFrom r (.post inp :: ops)
            = jCreatedIdsFrom r' ops := by
          simp only [jCreatedIdsFrom, hpost]
        obtain ⟨hb, hp⟩ := ih r'
        rw [hids]
        exact ⟨fun x hx => Nat.le_trans hmono (hb x hx), hp⟩
      | notFound =>
        have hids : jCreatedIdsFrom r (.post inp :: ops)
            = jCreatedIdsFrom r' ops := by
          simp only [jCreatedIdsFrom, hpost]
        obtain ⟨hb, hp⟩ := ih r'
        rw [hids]
        exact ⟨fun x hx => Nat.le_trans hmono (hb x hx), hp⟩
      | badRequest =>
        have hids : jCreatedIdsFrom r (.post inp :: ops)
            = jCreatedIdsFrom r' ops := by
          simp only [jCreatedIdsFrom, hpost]
        obtain ⟨hb, hp⟩ := ih r'
        rw [hids]
        exact ⟨fun x hx => Nat.le_trans hmono (hb x hx), hp⟩
    | put n inp =>
      have hids : jCreatedIdsFrom r (.put n inp :: ops)
          = jCreatedIdsFrom (applyJOp r (.put n inp)) ops := rfl
      obtain ⟨hb, hp⟩ := ih (applyJOp r (.put n inp))
      rw [hids]
      exact ⟨fun x hx =>
        Nat.le_trans (applyJOp_nextId r (.put n inp)) (hb x hx), hp⟩
    | del n =>
      have hids : jCreatedIdsFrom r (.del n :: ops)
          = jCreatedIdsFrom (applyJOp r (.del n)) ops := rfl
      obtain ⟨hb, hp⟩ := ih (applyJOp r (.del n))
      rw [hids]
      exact ⟨fun x hx =>
        Nat.le_trans (applyJOp_nextId r (.del n)) (hb x hx), hp⟩

/-! ### Claim theorems -/

/-- Counterexample to claim C1 as stated: the in-memory variant has no
getById endpoint at all.  A GET of `/api/tasks/1` against the empty store
(where no task has id 1) is answered by the `GET *` catch-all with the
static index page and status 200 — not with a 404 `NotFoundError`. -/
theorem C1_counterexample :
    dispatchGet initStore "/api/tasks/1" = .staticPage ∧
    getStatus (dispatchGet initStore "/api/tasks/1") ≠ 404 := by
  constructor
  · decide
  · decide

/-- Claim C1 amended: in the structured variant, create followed by
getById of the returned id yields exactly the created record, and getById
of an id no row carries answers not-found; in the in-memory variant every
GET whose path is not `/api/tasks` — in particular `/api/tasks/{id}` —
falls through to the catch-all and returns the static page with
status 200. -/
theorem C1_roundtrip_amended :
    (∀ (r : Repo) (inp : JInput), repoOk r = true → validInput inp = true →
      ∃ t r', jCreate r inp = (.createdR t, r') ∧ t.id = some r.nextId ∧
        jGetById r' r.nextId = .ok t) ∧
    (∀ (r : Repo) (i : Nat), (∀ u ∈ r.rows, u.id ≠ some i) →
      jGetById r i = .notFound) ∧
    (∀ (st : MemStore) (p : String), p ≠ "/api/tasks" →
      dispatchGet st p = .staticPage ∧ getStatus (dispatchGet st p) = 200) := by
  refine ⟨?_, ?_, ?_⟩
  · intro r inp hok hv
    refine ⟨{ mkJTask inp with id := some r.nextId },
      { rows := r.rows ++ [{ mkJTask inp with id := some r.nextId }],
        nextId := r.nextId + 1 }, ?_, rfl, ?_⟩
    · unfold jCreate
      rw [if_pos hv]
      simp [Repo.save, mkJTask]
    · unfold jGetById Repo.findById
      dsimp only
      rw [find?_append_of_none (repoOk_find?_fresh hok),
        List.find?_cons_of_pos _ (by simp)]
  · intro r i h
    unfold jGetById
    have hnone : r.findById i = none := by
      unfold Repo.findById
      rw [List.find?_eq_none]
      intro u hu
      simpa using h u hu
    rw [hnone]
  · intro st p hp
    unfold dispatchGet
    rw [if_neg hp]
    exact ⟨rfl, rfl⟩

/-- Witness for the amended C1: creating `inputX` in the empty repository
and reading it back by the returned id. -/
theorem C1_witness :
    ∃ t r', jCreate emptyRepo inputX = (.createdR t, r') ∧
      t.id = some emptyRepo.nextId ∧ jGetById r' emptyRepo.nextId = .ok t :=
  C1_roundtrip_amended.1 emptyRepo inputX (by decide) (by decide)

/-- Counterexample to claim C2 as stated: after creating a task and then
updating it with the title `" pad "`, the store holds an untrimmed title,
because the in-memory PUT handler stores the client title verbatim. -/
theorem C2_counterexample :
    titlesOk (runTrace initStore [.post bodyX 0, .put 1 bodyPad]) = false := by
  decide

/-- Claim C2 amended: in the in-memory variant, create stores only
trimmed non-empty titles, and create and delete preserve the title
invariant — but update does not re-validate or trim, so the invariant
holds only for stores mutated by create and delete alone. -/
theorem C2_invariant_amended :
    (∀ (st : MemStore) (b : ReqBody) (c : Nat), titlesOk st = true →
      titlesOk (postTasks st b c).2 = true) ∧
    (∀ (st : MemStore) (i : Nat), titlesOk st = true →
      titlesOk (deleteTask st i).2 = true) ∧
    (∀ (st : MemStore) (b : ReqBody) (c : Nat) (t : MemTask) (st' : MemStore),
      postTasks st b c = (.created t, st') → titleOk t.title = true) := by
  refine ⟨titlesOk_post, titlesOk_del, ?_⟩
  intro st b c t st' h
  obtain ⟨s, _, hs, ht, _⟩ := postCore_created h
  rw [ht]
  exact titleOk_jsTrim hs

/-- Witness for the amended C2: the create from `bodyX` keeps the
invariant and stores an acceptable title. -/
theorem C2_witness :
    titlesOk (postTasks initStore bodyX 0).2 = true ∧
    titleOk tX.title = true :=
  ⟨C2_invariant_amended.1 initStore bodyX 0 rfl,
   C2_invariant_amended.2.2 initStore bodyX 0 tX stOne (by decide)⟩

/-- Counterexample to claim C3 as stated: the in-memory create handler
has no upper length bound, so a 101-character title is accepted, not
rejected with a `ValidationError`. -/
theorem C3_counterexample :
    (postTasks initStore body101 0).1 ≠ .badRequest ∧
    (postTasks initStore body101 0).1 =
      .created { id := 1, title := .vStr a101, completed := .vBool false,
                 createdAt := 0 } := by
  constructor
  · decide
  · decide

/-- Claim C3 amended: the in-memory create rejects a string title exactly
when its trim is empty (so `""` and `"   "` fail but any non-blank title
of any length, including 101 characters, succeeds), while the structured
variant's validation accepts a title exactly when its trimmed length is
in `[1, 100]` and rejects invalid input with a 400 before saving. -/
theorem C3_validation_amended :
    (∀ (st : MemStore) (c : Nat) (b : ReqBody) (s : String),
      b.title = some (.vStr s) →
      ((postTasks st b c).1 = .badRequest ↔ jsTrim s = "")) ∧
    (∀ inp : JInput, inp.description = none →
      (validInput inp = true ↔
        1 ≤ (jsTrim inp.title).length ∧ (jsTrim inp.title).length ≤ 100)) ∧
    (∀ (r : Repo) (inp : JInput), validInput inp = false →
      jCreate r inp = (.badRequest, r)) := by
  refine ⟨?_, ?_, ?_⟩
  · intro st c b s hb
    show (postCore st b.title c).1 = .badRequest ↔ jsTrim s = ""
    rw [hb, postCore_vStr_fst]
    by_cases hj : jsTrim s = ""
    · simp [hj]
    · simp [hj]
  · intro inp hd
    unfold validInput
    rw [hd]
    simp
  · intro r inp hv
    unfold jCreate
    rw [if_neg (by simp [hv])]

/-- Witness for the amended C3: a whitespace-only title is rejected, and
`inputX` is valid with trimmed length 1. -/
theorem C3_witness :
    ((postTasks initStore bodyPad 0).1 = .badRequest ↔ jsTrim " pad " = "") ∧
    (validInput inputX = true ↔
      1 ≤ (jsTrim "x").length ∧ (jsTrim "x").length ≤ 100) :=
  ⟨C3_validation_amended.1 initStore 0 bodyPad " pad " rfl,
   C3_validation_amended.2.1 inputX rfl⟩

/-- Claim C4: along every operation sequence on one store (creates
interleaved with updates and deletions), the ids returned by the
successful create calls are strictly increasing in call order, hence
pairwise distinct and never reassigned after a deletion; the same strict
monotonicity holds for the structured variant's repository. -/
theorem C4_ids_strict_mono :
    (∀ (st : MemStore) (ops : List Op),
      (createdIdsFrom st ops).Pairwise (· < ·) ∧
      (createdIdsFrom st ops).Pairwise (· ≠ ·)) ∧
    (∀ (r : Repo) (ops : List JOp),
      (jCreatedIdsFrom r ops).Pairwise (· < ·)) := by
  refine ⟨fun st ops => ?_, fun r ops => (jCreatedIdsFrom_bounds ops r).2⟩
  have hp := (createdIdsFrom_bounds ops st).2
  exact ⟨hp, hp.imp Nat.ne_of_lt⟩

/-- Claim C5: in the partial-update variant, a successful update changes
exactly the task with the given id, keeps its position, preserves `id`
and `createdAt`, and every field omitted from the body keeps its previous
value. -/
theorem C5_partial_update_frame (st : MemStore) (i : Nat) (b : ReqBody)
    (t' : MemTask) (st' : MemStore) (h : putTask st i b = (.ok t', st')) :
    ∃ t l1 l2, st.tasks = l1 ++ t :: l2 ∧ st'.tasks = l1 ++ t' :: l2 ∧
      st'.nextId = st.nextId ∧ t'.id = t.id ∧ t'.createdAt = t.createdAt ∧
      (b.title = none → t'.title = t.title) ∧
      (b.completed = none → t'.completed = t.completed) := by
  obtain ⟨t, hfind, ht', hst'⟩ := putTask_ok h
  obtain ⟨l1, l2, hl, _, _, hupd⟩ := updateFirst_of_find? (applyPut b) hfind
  refine ⟨t, l1, l2, hl, ?_, ?_, ?_, ?_, ?_, ?_⟩
  · rw [hst', ht']
    exact hupd
  · rw [hst']
  · rw [ht']
    exact applyPut_id b t
  · rw [ht']
    exact applyPut_createdAt b t
  · intro hb
    rw [ht']
    exact applyPut_title_none t hb
  · intro hb
    rw [ht']
    exact applyPut_completed_none t hb

/-- Witness for C5 at a concrete store and body: updating the only task
of `stOne` with a body that sets only `completed` keeps title, id and
`createdAt`. -/
theorem C5_witness :
    ∃ t l1 l2, stOne.tasks = l1 ++ t :: l2 ∧ stUp.tasks = l1 ++ tUp :: l2 ∧
      stUp.nextId = stOne.nextId ∧ tUp.id = t.id ∧ tUp.createdAt = t.createdAt ∧
      (bodyNum3.title = none → tUp.title = t.title) ∧
      (bodyNum3.completed = none → tUp.completed = t.completed) :=
  C5_partial_update_frame stOne 1 bodyNum3 tUp stUp (by decide)

/-- Claim C6: update never mutates `id` or `createdAt`: the in-memory
update preserves the `(id, createdAt)` projection of every stored task,
and the structured update preserves every row id and returns a record
with the requested id (that variant's entity has no `createdAt` field). -/
theorem C6_update_preserves_id_createdAt :
    (∀ (st : MemStore) (i : Nat) (b : ReqBody),
      ((putTask st i b).2).tasks.map (fun t => (t.id, t.createdAt))
        = st.tasks.map (fun t => (t.id, t.createdAt))) ∧
    (∀ (r : Repo) (i : Nat) (inp : JInput) (t : JTask) (r' : Repo),
      jUpdate r i inp = (.ok t, r') →
      t.id = some i ∧ r'.rows.map JTask.id = r.rows.map JTask.id ∧
      r'.nextId = r.nextId) := by
  constructor
  · intro st i b
    rcases putTask_snd_cases st i b with hc | hc
    · rw [hc]
    · rw [hc]
      show (updateFirst (fun u => u.id == i) (applyPut b) st.tasks).map
          (fun t => (t.id, t.createdAt))
        = st.tasks.map (fun t => (t.id, t.createdAt))
      refine updateFirst_map_eq _ ?_ _
      intro a ha
      rfl
  · intro r i inp t r' h
    obtain ⟨_, existing, hfind, ht, htid, hr', hnext⟩ := jUpdate_ok h
    refine ⟨htid, ?_, hnext⟩
    rw [hr']
    refine updateFirst_map_eq JTask.id (fun a ha => ?_) _
    have haid : a.id = t.id := by simpa using ha
    exact haid.symm

/-- Witness for C6 at concrete stores: a `completed`-only update on
`stOne` and a full-replace update on `repoOne`. -/
theorem C6_witness :
    ((putTask stOne 1 bodyNum3).2).tasks.map (fun t => (t.id, t.createdAt))
        = stOne.tasks.map (fun t => (t.id, t.createdAt)) ∧
    (jTaskY.id = some 1 ∧ repoY.rows.map JTask.id = repoOne.rows.map JTask.id ∧
      repoY.nextId = repoOne.nextId) :=
  ⟨C6_update_preserves_id_createdAt.1 stOne 1 bodyNum3,
   C6_update_preserves_id_createdAt.2 repoOne 1 inputY jTaskY repoY (by decide)⟩

/-- Claim C8: a creation input that omits the status field yields a
record stored with the default: `completed = false` in the in-memory
variant, and `status = TODO` in the structured variant. -/
theorem C8_default_completed_status :
    (∀ (st : MemStore) (b : ReqBody) (c : Nat) (t : MemTask) (st' : MemStore),
      postTasks st b c = (.created t, st') →
      t.completed = .vBool false ∧ t ∈ st'.tasks) ∧
    (∀ (r : Repo) (inp : JInput) (t : JTask) (r' : Repo), inp.status = none →
      jCreate r inp = (.createdR t, r') → t.status = .TODO ∧ t ∈ r'.rows) := by
  constructor
  · intro st b c t st' h
    obtain ⟨s, _, _, ht, hst⟩ := postCore_created h
    refine ⟨by rw [ht], ?_⟩
    rw [hst]
    exact List.mem_append_right _ (List.mem_singleton.mpr rfl)
  · intro r inp t r' hs h
    obtain ⟨_, ht, hr⟩ := jCreate_createdR h
    constructor
    · rw [ht]
      show inp.status.getD .TODO = .TODO
      rw [hs]
      rfl
    · rw [hr]
      exact List.mem_append_right _ (List.mem_singleton.mpr rfl)

/-- Witness for C8: creating from `bodyX` stores `completed = false`, and
creating from `inputX` (no status supplied) stores status `TODO`. -/
theorem C8_witness :
    (tX.completed = .vBool false ∧ tX ∈ stOne.tasks) ∧
    (jTaskX.status = .TODO ∧ jTaskX ∈ repoOne.rows) :=
  ⟨C8_default_completed_status.1 initStore bodyX 0 tX stOne (by decide),
   C8_default_completed_status.2 emptyRepo inputX jTaskX repoOne rfl (by decide)⟩

/-- Claim C9: in the in-memory variant the `completed` field of every
stored task is always a boolean: every state reachable from the initial
store by create, update and delete operations satisfies `completedOk`,
create stores `completed = false`, and update stores the truthiness
coercion of whatever value the body supplied. -/
theorem C9_completed_boolean_invariant :
    (∀ ops : List Op, completedOk (runTrace initStore ops) = true) ∧
    (∀ (st : MemStore) (b : ReqBody) (c : Nat) (t : MemTask) (st' : MemStore),
      postTasks st b c = (.created t, st') → t.completed = .vBool false) ∧
    (∀ (st : MemStore) (i : Nat) (b : ReqBody) (v : JSValue) (t' : MemTask)
      (st' : MemStore), b.completed = some v →
      putTask st i b = (.ok t', st') → t'.completed = .vBool (truthy v)) := by
  refine ⟨fun ops => completedOk_runTrace ops initStore rfl, ?_, ?_⟩
  · intro st b c t st' h
    obtain ⟨s, _, _, ht, _⟩ := postCore_created h
    rw [ht]
  · intro st i b v t' st' hb h
    obtain ⟨t, _, ht', _⟩ := putTask_ok h
    rw [ht']
    exact applyPut_completed_some t hb

/-- Witness for C9: a non-boolean `completed` value (the number 3) is
stored as the boolean `true`. -/
theorem C9_witness :
    completedOk (runTrace initStore [.post bodyX 0]) = true ∧
    tUp.completed = .vBool true :=
  ⟨C9_completed_boolean_invariant.1 [.post bodyX 0],
   C9_completed_boolean_invariant.2.2 stOne 1 bodyNum3 (.vNum 3) tUp stUp
     rfl (by decide)⟩

/-- Claim C7: delete fails exactly when no task has the id and otherwise
removes and returns the removed record, leaving the rest unchanged; on a
store with pairwise-distinct ids, a second delete of the same id (and, in
the structured variant, a getById) then fails with not-found. -/
theorem C7_delete_semantics :
    (∀ (st : MemStore) (i : Nat),
      ((deleteTask st i).1 = none ↔ ∀ t ∈ st.tasks, t.id ≠ i) ∧
      ((deleteTask st i).1 = none → (deleteTask st i).2 = st)) ∧
    (∀ (st : MemStore) (i : Nat) (t : MemTask) (st' : MemStore),
      st.tasks.Pairwise (fun a b => a.id ≠ b.id) →
      deleteTask st i = (some t, st') →
      t.id = i ∧ (∃ l1 l2, st.tasks = l1 ++ t :: l2 ∧ st'.tasks = l1 ++ l2) ∧
      st'.nextId = st.nextId ∧ (∀ u ∈ st'.tasks, u.id ≠ i) ∧
      deleteTask st' i = (none, st')) ∧
    (∀ (r : Repo) (i : Nat),
      ((jDelete r i).1 = .notFound ↔ ∀ u ∈ r.rows, u.id ≠ some i) ∧
      (∀ r', r.rows.Pairwise (fun a b => a.id ≠ b.id) →
        jDelete r i = (.noContent, r') →
        (∃ t l1 l2, t.id = some i ∧ r.rows = l1 ++ t :: l2 ∧
          r'.rows = l1 ++ l2) ∧
        jGetById r' i = .notFound ∧ jDelete r' i = (.notFound, r'))) := by
  refine ⟨?_, ?_, ?_⟩
  · intro st i
    constructor
    · show (removeFirst (fun t => t.id == i) st.tasks).1 = none ↔ _
      rw [removeFirst_fst_none]
      constructor
      · intro h t ht
        simpa using h t ht
      · intro h t ht
        simpa using h t ht
    · intro h
      show ({ st with
        tasks := (removeFirst (fun t => t.id == i) st.tasks).2 } : MemStore) = st
      rw [removeFirst_snd_of_none h]
  · intro st i t st' huniq h
    unfold deleteTask at h
    injection h with h1 h2
    obtain ⟨hpt, l1, l2, hl, hl1, hsnd⟩ := removeFirst_some h1
    have htid : t.id = i := by simpa using hpt
    have hts : st'.tasks = l1 ++ l2 := by rw [← h2]; exact hsnd
    have hl2 : ∀ u ∈ l2, u.id ≠ i := by
      rw [hl] at huniq
      have hpl := (List.pairwise_append.mp huniq).2.1
      have := (List.pairwise_cons.mp hpl).1
      intro u hu
      have hne := this u hu
      rw [htid] at hne
      exact fun hc => hne hc.symm
    have hall : ∀ u ∈ st'.tasks, u.id ≠ i := by
      intro u hu
      rw [hts] at hu
      rcases List.mem_append.mp hu with hm | hm
      · have := hl1 u hm
        simpa using this
      · exact hl2 u hm
    refine ⟨htid, ⟨l1, l2, hl, hts⟩, by rw [← h2], hall, ?_⟩
    have hnone : (removeFirst (fun u => u.id == i) st'.tasks).1 = none := by
      rw [removeFirst_fst_none]
      intro u hu
      simpa using hall u hu
    show ((removeFirst (fun u => u.id == i) st'.tasks).1,
      ({ st' with
        tasks := (removeFirst (fun u => u.id == i) st'.tasks).2 } : MemStore))
      = (none, st')
    rw [hnone, removeFirst_snd_of_none hnone]
  · intro r i
    constructor
    · cases hf : r.findById i with
      | none =>
        constructor
        · intro _ u hu
          have hne : ¬((fun t => t.id == some i) u = true) := by
            have hfq : r.rows.find? (fun t => t.id == some i) = none := hf
            exact List.find?_eq_none.mp hfq u hu
          simpa using hne
        · intro _
          show (jDelete r i).1 = .notFound
          unfold jDelete
          rw [hf]
      | some t0 =>
        constructor
        · intro hcontra
          unfold jDelete at hcontra
          rw [hf] at hcontra
          exact JResp.noConfusion hcontra
        · intro hall
          exact absurd (findById_id hf)
            (hall t0 (List.mem_of_find?_eq_some hf))
    · intro r' huniq h
      unfold jDelete at h
      cases hf : r.findById i with
      | none =>
        rw [hf] at h
        exact absurd h (by simp)
      | some t0 =>
        rw [hf] at h
        injection h with h1 h2
        have hrm : (removeFirst (fun u => u.id == some i) r.rows).1 = some t0 := by
          rw [removeFirst_fst_eq_find?]
          exact hf
        obtain ⟨hpt, l1, l2, hl, hl1, hsnd⟩ := removeFirst_some hrm
        have hrows : r'.rows = l1 ++ l2 := by rw [← h2]; exact hsnd
        have ht0 : t0.id = some i := findById_id hf
        have hl2 : ∀ u ∈ l2, u.id ≠ some i := by
          rw [hl] at huniq
          have hpl := (List.pairwise_append.mp huniq).2.1
          have := (List.pairwise_cons.mp hpl).1
          intro u hu
          have hne := this u hu
          rw [ht0] at hne
          exact fun hc => hne hc.symm
        have hall : ∀ u ∈ r'.rows, u.id ≠ some i := by
          intro u hu
          rw [hrows] at hu
          rcases List.mem_append.mp hu with hm | hm
          · have := hl1 u hm
            simpa using this
          · exact hl2 u hm
        have hfnone : r'.findById i = none := by
          unfold Repo.findById
          rw [List.find?_eq_none]
          intro u hu
          simpa using hall u hu
        refine ⟨⟨t0, l1, l2, ht0, hl, hrows⟩, ?_, ?_⟩
        · unfold jGetById
          rw [hfnone]
        · unfold jDelete
          rw [hfnone]

/-- Witness for C7: deleting the only task of `stOne` removes it, and a
second delete of the same id fails. -/
theorem C7_witness :
    tX.id = 1 ∧
    (∃ l1 l2, stOne.tasks = l1 ++ tX :: l2 ∧ stEmpty2.tasks = l1 ++ l2) ∧
    stEmpty2.nextId = stOne.nextId ∧ (∀ u ∈ stEmpty2.tasks, u.id ≠ 1) ∧
    deleteTask stEmpty2 1 = (none, stEmpty2) :=
  C7_delete_semantics.2.1 stOne 1 tX stEmpty2 (by decide) (by decide)

/-- Claim C10: the in-memory create handler reads only the body's
`title` field, so two bodies with the same title produce the same
response and the same store, whatever their other fields. -/
theorem C10_create_noninterference (st : MemStore) (c : Nat)
    (b1 b2 : ReqBody) (h : b1.title = b2.title) :
    postTasks st b1 c = postTasks st b2 c := by
  unfold postTasks
  rw [h]

/-- Witness for C10: a plain body and a body adding client-chosen `id`,
`completed`, `createdAt` and extra fields create identical tasks. -/
theorem C10_witness :
    postTasks initStore bodyX 0 = postTasks initStore bodyDecoy 0 :=
  C10_create_noninterference initStore 0 bodyX bodyDecoy rfl

end TaskApp
